import Mathlib

/-
Verification of the convo.space conversation engine.

The Go sources are embedded shallowly: structs become structures, maps become
association lists, and every mutating method becomes a pure function from the
old state to the new state together with the list of payloads it pushed into
user mailboxes (a pair of the receiving user and the payload string).  Machine
words are Nat with an explicit modulus where Go wraps (the 32-bit FNV hash).
A Go method that would dereference a nil pointer on some input returns none on
that input (its callers in the sources always guard those inputs first).  The
wall-clock bytes consumed by the identifier generator are an environment
input, so they are passed in explicitly, as is the externally configured base
address URL.
-/

/-- One multiply-xor round of the 32-bit FNV-1a hash from hash/fnv, as used by
util.go: xor the byte into the state, multiply by the FNV prime, wrap at 2^32. -/
def fnvStep (h b : Nat) : Nat := ((h ^^^ b) * 16777619) % 4294967296

/-- The 32-bit FNV-1a hash of a byte list, starting from the offset basis. -/
def fnv32a (bs : List Nat) : Nat := List.foldl fnvStep 2166136261 bs

/-- util.go NewId: hash the current wall-clock reading (its MarshalBinary
bytes, passed here as the parameter now) followed by the salt, and render the
32-bit sum in decimal.  The only failure in the source is the serialization of
the clock reading, which the explicit parameter replaces. -/
def NewId (now data : List Nat) : String := toString (fnv32a (now ++ data))

/-- util.go OtherUserId: the source computes (^userId) + 2; on Go ints the
complement ^x equals -x - 1, so the result is 1 - x without overflow on the
slot indices 0 and 1 that the program uses. -/
def OtherUserId (userId : Int) : Int := (-userId - 1) + 2

/-- util.go User: the identity of one attached party.  The runtime channels
(Pipe, Stop) and the HTTP writer are not data: payloads pushed into Pipe
appear as (recipient, payload) pairs in the results of the operations below,
and the Stop/Pipe lifecycle is the transition system near the end of the
definitions. -/
structure User where
  ip : String
  userId : Int
  convoId : String
deriving DecidableEq

/-- convo.go Convo: the two slots (Go: Users [2]*User, either may be nil) and
the map from message id to the raw bytes of the pending message. -/
structure Convo where
  convoId : String
  user0 : Option User
  user1 : Option User
  messages : List (String × List Nat)
deriving DecidableEq

/-- Room (the conversation registry): the map from conversation id to
conversation.  The sync.Mutex disappears in the embedding: each method below
is one atomic step, exactly the critical section the source runs under the
lock. -/
structure Room where
  convos : List (String × Convo)
deriving DecidableEq

/-- Go map read m[k] over an association list: the first binding of k. -/
def lookupKey {α : Type} (k : String) : List (String × α) → Option α
  | [] => none
  | p :: ps => if p.1 = k then some p.2 else lookupKey k ps

/-- Go delete(m, k): drop the bindings of k. -/
def eraseKey {α : Type} (k : String) : List (String × α) → List (String × α)
  | [] => []
  | p :: ps => if p.1 = k then eraseKey k ps else p :: eraseKey k ps

/-- Go map write m[k] = v on a key already present: replace the bindings of k. -/
def updateKey {α : Type} (k : String) (v : α) : List (String × α) → List (String × α)
  | [] => []
  | p :: ps => if p.1 = k then (k, v) :: updateKey k v ps else p :: updateKey k v ps

/-- The occupied slots of a conversation, slot 0 first, as the source's
if Users[0] != nil / if Users[1] != nil sequences visit them. -/
def Convo.occupants (c : Convo) : List User := c.user0.toList ++ c.user1.toList

/-- convo.go Broadcast: error when both slots are empty, otherwise one write
of the payload to each occupied slot. -/
def Convo.Broadcast (c : Convo) (data : String) :
    Except String (List (User × String)) :=
  if c.user0.isNone && c.user1.isNone then
    Except.error "no users in conversation"
  else
    Except.ok (c.occupants.map (fun u => (u, data)))

/-- The writes Broadcast produces at a call site that discards its error
(Room.ReadMessage and Room.JoinConvo both do). -/
def broadcastWrites (c : Convo) (data : String) : List (User × String) :=
  match c.Broadcast data with
  | Except.ok ws => ws
  | Except.error _ => []

/-- convo.go ReadMessage: the raw read c.Messages[messageId]; none is the Go
nil slice an absent key yields. -/
def Convo.ReadMessage (c : Convo) (messageId : String) : Option (List Nat) :=
  lookupKey messageId c.messages

/-- convo.go CreateMessage: generate the message id from the clock bytes and
the data as salt, fail on a collision with a stored message id, otherwise
store the message under the new id. -/
def Convo.CreateMessage (c : Convo) (now data : List Nat) :
    Except String (Convo × String) :=
  let messageId := NewId now data
  if (lookupKey messageId c.messages).isSome then
    Except.error "message id overwrite"
  else
    Except.ok ({ c with messages := (messageId, data) :: c.messages }, messageId)

/-- convo.go AddMessage: create the message, then notify each occupied slot
with a link to it; the line starts with two blanks when the slot holds the
sender (its IP equals the caller IP) and with a plus sign otherwise. -/
def Convo.AddMessage (URL : String) (c : Convo) (now data : List Nat) (ip : String) :
    Except String (Convo × List (User × String)) :=
  match c.CreateMessage now data with
  | Except.error e => Except.error e
  | Except.ok (c2, messageId) =>
      Except.ok (c2, c2.occupants.map (fun u =>
        (u, (if u.ip == ip then "  " else "+ ") ++ URL ++ c2.convoId ++ "/" ++ messageId)))

/-- Go Users[i] for the indices the program uses (0 and 1). -/
def Convo.getUser (c : Convo) (i : Int) : Option User :=
  if i = 0 then c.user0 else if i = 1 then c.user1 else none

/-- Go Users[i] = u for the indices the program uses (0 and 1). -/
def Convo.setUser (c : Convo) (i : Int) (u : Option User) : Convo :=
  if i = 0 then { c with user0 := u } else if i = 1 then { c with user1 := u } else c

/-- Room.IsConvo: key presence in the registry map. -/
def Room.IsConvo (r : Room) (convoId : String) : Bool :=
  (lookupKey convoId r.convos).isSome

/-- Room.IsConvoFull: both slots occupied; none when the conversation is
absent (the source would dereference nil; its caller checks IsConvo first). -/
def Room.IsConvoFull (r : Room) (convoId : String) : Option Bool :=
  match lookupKey convoId r.convos with
  | none => none
  | some c => some (c.user0.isSome && c.user1.isSome)

/-- Room.IPExists: does one of the occupied slots hold the caller IP; none
when the conversation is absent (nil dereference in the source, guarded by
IsConvo at both call sites). -/
def Room.IPExists (r : Room) (convoId ip : String) : Option Bool :=
  match lookupKey convoId r.convos with
  | none => none
  | some c =>
      if c.user0.any (fun u => u.ip == ip) then some true
      else if c.user1.any (fun u => u.ip == ip) then some true
      else some false

/-- Room.OtherUser: the join line carrying the opposite occupant of slot
userId; none when the conversation or that occupant is absent. -/
def Room.OtherUser (r : Room) (convoId : String) (userId : Int) : Option String :=
  match lookupKey convoId r.convos with
  | none => none
  | some c =>
      match c.getUser (OtherUserId userId) with
      | none => none
      | some u => some ("> " ++ u.ip)

/-- Room.DeleteUser: empty the slot; when the other slot is also empty, stop
the ping task and delete the conversation from the registry, all in the same
locked section; otherwise write the leave line to the remaining occupant.
The result is (new registry, mailbox writes, whether the ping task was
stopped); none when the conversation or the slot occupant is absent (the
source dereferences nil there). -/
def Room.DeleteUser (r : Room) (convoId : String) (userId : Int) :
    Option (Room × List (User × String) × Bool) :=
  match lookupKey convoId r.convos with
  | none => none
  | some c =>
      match c.getUser userId with
      | none => none
      | some u =>
          let c2 := c.setUser userId none
          if c2.user0.isNone && c2.user1.isNone then
            some ({ convos := eraseKey convoId r.convos }, [], true)
          else
            match c2.getUser (OtherUserId userId) with
            | none => none
            | some other =>
                some ({ convos := updateKey convoId c2 r.convos },
                      [(other, "< " ++ u.ip)], false)

/-- Room.ReadMessage: under the lock, check the message, broadcast the read
receipt (error discarded), return the bytes; the deferred delete removes the
message id on every path before the lock is released.  The result is
(new registry, bytes or error, mailbox writes); none when the conversation is
absent (nil dereference in the source, guarded by IsConvo at the call site). -/
def Room.ReadMessage (URL : String) (r : Room) (convoId messageId : String) :
    Option (Room × Except String (List Nat) × List (User × String)) :=
  match lookupKey convoId r.convos with
  | none => none
  | some c =>
      let deleted : Room :=
        { convos := updateKey convoId
            { c with messages := eraseKey messageId c.messages } r.convos }
      match c.ReadMessage messageId with
      | none => some (deleted, Except.error "message doesn\x27t exist", [])
      | some data =>
          some (deleted, Except.ok data,
            broadcastWrites c ("- " ++ URL ++ convoId ++ "/" ++ messageId))

/-- Room.AddMessage: locked delegation to Convo.AddMessage; none when the
conversation is absent (nil dereference in the source). -/
def Room.AddMessage (URL : String) (r : Room) (now data : List Nat) (convoId ip : String) :
    Option (Room × Except String (List (User × String))) :=
  match lookupKey convoId r.convos with
  | none => none
  | some c =>
      match c.AddMessage URL now data ip with
      | Except.error e => some (r, Except.error e)
      | Except.ok (c2, ws) =>
          some ({ convos := updateKey convoId c2 r.convos }, Except.ok ws)

/-- Room.JoinConvo: when exactly one slot is occupied, broadcast the join
line (so only the prior occupant receives it) and then place the new user,
with its convoId and userId fields assigned, in the free slot; otherwise fail
and leave the registry untouched.  The ok value is the user as stored, the
functional image of the pointer mutations the source performs.  none when the
conversation is absent (nil dereference in the source, guarded by IsConvo). -/
def Room.JoinConvo (r : Room) (user : User) (convoId : String) :
    Option (Room × Except String User × List (User × String)) :=
  match lookupKey convoId r.convos with
  | none => none
  | some c =>
      if c.user0.isNone && c.user1.isSome then
        let u2 : User := { user with convoId := convoId, userId := 0 }
        some ({ convos := updateKey convoId (c.setUser 0 (some u2)) r.convos },
              Except.ok u2, broadcastWrites c ("> " ++ user.ip))
      else if c.user1.isNone && c.user0.isSome then
        let u2 : User := { user with convoId := convoId, userId := 1 }
        some ({ convos := updateKey convoId (c.setUser 1 (some u2)) r.convos },
              Except.ok u2, broadcastWrites c ("> " ++ user.ip))
      else
        some (r, Except.error "this is bad", [])

/-- Room.CreateConvo: generate a conversation id from the clock bytes with an
empty salt, fail on a registry collision, otherwise insert a fresh
conversation holding the creator in slot 0 and start its ping task. -/
def Room.CreateConvo (r : Room) (now : List Nat) (user : User) :
    Room × Except String String :=
  let convoId := NewId now []
  if (lookupKey convoId r.convos).isSome then
    (r, Except.error "convo id overwrite")
  else
    let u2 : User := { user with convoId := convoId, userId := 0 }
    ({ convos := (convoId,
        { convoId := convoId, user0 := some u2, user1 := none,
          messages := [] }) :: r.convos }, Except.ok convoId)

/-- What a request handler in main.go does to its own response: return with
no body written, write the message bytes as the body, or panic (the source
calls panic on every operation error). -/
inductive HandlerResult where
  | silent
  | body (data : List Nat)
  | panicked (msg : String)
deriving DecidableEq

/-- main.go GET on /convoId/messageId: bail out silently when the
conversation is absent or the caller IP matches neither occupant, otherwise
read the message, panicking on the error and writing the bytes on success. -/
def handleGetMessage (URL : String) (r : Room) (convoId messageId remoteIp : String) :
    Room × HandlerResult × List (User × String) :=
  match lookupKey convoId r.convos with
  | none => (r, HandlerResult.silent, [])
  | some _ =>
      match r.IPExists convoId remoteIp with
      | none => (r, HandlerResult.panicked "nil dereference", [])
      | some false => (r, HandlerResult.silent, [])
      | some true =>
          match r.ReadMessage URL convoId messageId with
          | none => (r, HandlerResult.panicked "nil dereference", [])
          | some (r2, Except.error e, ws) => (r2, HandlerResult.panicked e, ws)
          | some (r2, Except.ok data, ws) => (r2, HandlerResult.body data, ws)

/-- main.go PUT on /convoId: bail out silently when the conversation is
absent or the caller IP matches neither occupant, otherwise add the request
body as a message, panicking on the error. -/
def handlePut (URL : String) (r : Room) (now : List Nat) (convoId : String)
    (body : List Nat) (remoteIp : String) :
    Room × HandlerResult × List (User × String) :=
  match lookupKey convoId r.convos with
  | none => (r, HandlerResult.silent, [])
  | some _ =>
      match r.IPExists convoId remoteIp with
      | none => (r, HandlerResult.panicked "nil dereference", [])
      | some false => (r, HandlerResult.silent, [])
      | some true =>
          match r.AddMessage URL now body convoId remoteIp with
          | none => (r, HandlerResult.panicked "nil dereference", [])
          | some (r2, Except.error e) => (r2, HandlerResult.panicked e, [])
          | some (r2, Except.ok ws) => (r2, HandlerResult.silent, ws)

/-- The registry invariant: every conversation in the map has an occupied
slot. -/
def Room.WF (r : Room) : Prop :=
  ∀ p ∈ r.convos, (p.2.user0.isSome || p.2.user1.isSome) = true

instance (r : Room) : Decidable (Room.WF r) := by
  unfold Room.WF; infer_instance

/-- Where the cleanup goroutine of util.go Listen stands: receive from the
CloseNotifier, call Store.DeleteUser, send on u.Stop, close u.Pipe. -/
inductive CleanupPC where
  | waitNotify
  | callDeleteUser
  | sendStop
  | closePipe
  | finished
deriving DecidableEq

/-- A Go channel field as the loop and the goroutine see it: nilChan is the
zero value of a chan field no make ever assigned; a send on it blocks forever
and a select case receiving from it is never ready. -/
inductive ChanVal where
  | nilChan
  | madeChan
deriving DecidableEq

/-- The joint state of one User connection: its Stop channel value, the
cleanup goroutine position, whether the select loop of Listen is still
running, what Listen returned if it returned, and whether Pipe was closed. -/
structure ListenState where
  stopChan : ChanVal
  cleanup : CleanupPC
  loopRunning : Bool
  loopResult : Option (Except String Unit)
  pipeClosed : Bool

/-- util.go NewUser: Pipe is made, Stop is left at its zero value nil; Listen
enters its loop with nothing returned and the Pipe open. -/
def ListenState.init : ListenState :=
  { stopChan := ChanVal.nilChan, cleanup := CleanupPC.waitNotify,
    loopRunning := true, loopResult := none, pipeClosed := false }

/-- The interleaved small steps of the cleanup goroutine and the select loop.
The send on u.Stop is a rendezvous: it fires only as one joint step with the
loop receiving it, and only on a channel a make created; that joint step is
the loop observing its stop case and returning nil. -/
inductive ListenStep : ListenState → ListenState → Prop where
  | notifyFires (s : ListenState) :
      s.cleanup = CleanupPC.waitNotify →
      ListenStep s { s with cleanup := CleanupPC.callDeleteUser }
  | deleteUserReturns (s : ListenState) :
      s.cleanup = CleanupPC.callDeleteUser →
      ListenStep s { s with cleanup := CleanupPC.sendStop }
  | stopRendezvous (s : ListenState) :
      s.cleanup = CleanupPC.sendStop →
      s.stopChan = ChanVal.madeChan →
      s.loopRunning = true →
      ListenStep s { s with cleanup := CleanupPC.closePipe,
                            loopRunning := false,
                            loopResult := some (Except.ok ()) }
  | closeHappens (s : ListenState) :
      s.cleanup = CleanupPC.closePipe →
      ListenStep s { s with cleanup := CleanupPC.finished, pipeClosed := true }
  | pipeDelivery (s : ListenState) :
      s.loopRunning = true → s.pipeClosed = false →
      ListenStep s s

/-- Zero or more interleaved steps. -/
inductive ListenReach : ListenState → ListenState → Prop where
  | refl (s : ListenState) : ListenReach s s
  | tail {s t u : ListenState} : ListenReach s t → ListenStep t u → ListenReach s u

/- Concrete fixtures used by the witnesses. -/

/-- A party at one address. -/
def uAlice : User := { ip := "1.1.1.1", userId := 0, convoId := "c0" }

/-- A party at another address. -/
def uBob : User := { ip := "2.2.2.2", userId := 1, convoId := "c0" }

/-- A full conversation holding one pending message. -/
def cPair : Convo :=
  { convoId := "c0", user0 := some uAlice, user1 := some uBob,
    messages := [("m0", [104, 105])] }

/-- A registry holding just the full conversation. -/
def rPair : Room := { convos := [("c0", cPair)] }

/-- A conversation with only slot 1 occupied and no pending message. -/
def cSolo : Convo :=
  { convoId := "c1", user0 := none, user1 := some uBob, messages := [] }

/-- A registry holding just the half-empty conversation. -/
def rSolo : Room := { convos := [("c1", cSolo)] }

/-- A conversation whose stored message id is the one NewId regenerates from
an empty clock reading and an empty body, so that adding that body again
collides. -/
def cClash : Convo :=
  { convoId := "c2", user0 := some uAlice, user1 := none,
    messages := [("2166136261", [])] }

/-- A registry holding just the colliding conversation. -/
def rClash : Room := { convos := [("c2", cClash)] }

/- Association list lemmas. -/

theorem lookupKey_some_mem {α : Type} {k : String} {l : List (String × α)} {v : α}
    (h : lookupKey k l = some v) : (k, v) ∈ l := by
  induction l with
  | nil => simp [lookupKey] at h
  | cons p ps ih =>
      rw [lookupKey] at h
      by_cases hk : p.1 = k
      · rw [if_pos hk] at h
        cases p
        simp only [Option.some.injEq] at h
        simp_all
      · rw [if_neg hk] at h
        exact List.mem_cons_of_mem _ (ih h)

theorem lookupKey_eraseKey_self {α : Type} (k : String) (l : List (String × α)) :
    lookupKey k (eraseKey k l) = none := by
  induction l with
  | nil => rfl
  | cons p ps ih =>
      rw [eraseKey]
      by_cases hk : p.1 = k
      · rw [if_pos hk]; exact ih
      · rw [if_neg hk, lookupKey, if_neg hk]; exact ih

theorem lookupKey_eraseKey_ne {α : Type} {k j : String} (h : j ≠ k)
    (l : List (String × α)) : lookupKey j (eraseKey k l) = lookupKey j l := by
  induction l with
  | nil => rfl
  | cons p ps ih =>
      by_cases hk : p.1 = k
      · have hj : ¬ p.1 = j := by rw [hk]; exact fun e => h e.symm
        rw [eraseKey, if_pos hk, ih, lookupKey, if_neg hj]
      · by_cases hj : p.1 = j
        · rw [eraseKey, if_neg hk, lookupKey, if_pos hj, lookupKey, if_pos hj]
        · rw [eraseKey, if_neg hk, lookupKey, if_neg hj, ih, lookupKey, if_neg hj]

theorem eraseKey_of_lookupKey_none {α : Type} {k : String} {l : List (String × α)}
    (h : lookupKey k l = none) : eraseKey k l = l := by
  induction l with
  | nil => rfl
  | cons p ps ih =>
      rw [lookupKey] at h
      by_cases hk : p.1 = k
      · rw [if_pos hk] at h; exact absurd h (by simp)
      · rw [if_neg hk] at h
        rw [eraseKey, if_neg hk, ih h]

theorem lookupKey_updateKey_self {α : Type} {k : String} {l : List (String × α)}
    {v0 : α} (h : lookupKey k l = some v0) (v : α) :
    lookupKey k (updateKey k v l) = some v := by
  induction l with
  | nil => simp [lookupKey] at h
  | cons p ps ih =>
      rw [lookupKey] at h
      by_cases hk : p.1 = k
      · rw [updateKey, if_pos hk]
        simp [lookupKey]
      · rw [if_neg hk] at h
        rw [updateKey, if_neg hk, lookupKey, if_neg hk]
        exact ih h

theorem mem_updateKey {α : Type} {k : String} {v : α} {l : List (String × α)}
    {p : String × α} (h : p ∈ updateKey k v l) : p = (k, v) ∨ p ∈ l := by
  induction l with
  | nil => simp [updateKey] at h
  | cons q qs ih =>
      rw [updateKey] at h
      by_cases hk : q.1 = k
      · rw [if_pos hk] at h
        rcases List.mem_cons.mp h with h1 | h2
        · exact Or.inl h1
        · rcases ih h2 with h3 | h4
          · exact Or.inl h3
          · exact Or.inr (List.mem_cons_of_mem _ h4)
      · rw [if_neg hk] at h
        rcases List.mem_cons.mp h with h1 | h2
        · exact Or.inr (by simp [h1])
        · rcases ih h2 with h3 | h4
          · exact Or.inl h3
          · exact Or.inr (List.mem_cons_of_mem _ h4)

theorem mem_eraseKey {α : Type} {k : String} {l : List (String × α)}
    {p : String × α} (h : p ∈ eraseKey k l) : p ∈ l := by
  induction l with
  | nil => simp [eraseKey] at h
  | cons q qs ih =>
      rw [eraseKey] at h
      by_cases hk : q.1 = k
      · rw [if_pos hk] at h; exact List.mem_cons_of_mem _ (ih h)
      · rw [if_neg hk] at h
        rcases List.mem_cons.mp h with h1 | h2
        · simp [h1]
        · exact List.mem_cons_of_mem _ (ih h2)

/-- Claim C9: Broadcast fails with an error if and only if neither slot is
occupied, and then delivers nothing (the error carries no writes); otherwise
it succeeds and delivers the payload to every occupied slot. -/
theorem broadcast_error_iff_empty (c : Convo) (data : String) :
    ((∃ e, c.Broadcast data = Except.error e) ↔ (c.user0 = none ∧ c.user1 = none)) ∧
    (∀ ws, c.Broadcast data = Except.ok ws →
      ws = c.occupants.map (fun u => (u, data)) ∧
      ∀ u, c.user0 = some u ∨ c.user1 = some u → (u, data) ∈ ws) := by
  rcases h0 : c.user0 with _ | u0 <;> rcases h1 : c.user1 with _ | u1 <;>
    simp_all [Convo.Broadcast, Convo.occupants] <;>
    (intro u hu; rcases hu with h | h <;> simp [h])

/-- Claim C10: for each slot index 0 or 1, OtherUserId returns the other
index 1 - userId, and applying it twice returns the original index. -/
theorem otherUserId_swaps (userId : Int) (h : userId = 0 ∨ userId = 1) :
    OtherUserId userId = 1 - userId ∧ OtherUserId (OtherUserId userId) = userId := by
  rcases h with h | h <;> subst h <;> exact ⟨rfl, rfl⟩

/-- Witness for C10 at slot index 0. -/
theorem otherUserId_swaps_witness :
    ((0 : Int) = 0 ∨ (0 : Int) = 1) ∧
    (OtherUserId 0 = 1 - 0 ∧ OtherUserId (OtherUserId 0) = 0) :=
  ⟨Or.inl rfl, otherUserId_swaps 0 (Or.inl rfl)⟩

/-- Claim C1: on a conversation in the registry, a first ReadMessage of a
stored id returns its bytes, removes the entry from the message map, and
carries the read-receipt broadcast in its writes; a second ReadMessage of the
same id fails as absent; a ReadMessage of an absent id fails as absent and
leaves the message map unchanged. -/
theorem readMessage_read_once (URL : String) (r : Room) (convoId : String)
    (c : Convo) (hc : lookupKey convoId r.convos = some c) (messageId : String) :
    (∀ data, lookupKey messageId c.messages = some data →
      Room.ReadMessage URL r convoId messageId =
        some ({ convos := updateKey convoId
                  { c with messages := eraseKey messageId c.messages } r.convos },
          Except.ok data,
          broadcastWrites c ("- " ++ URL ++ convoId ++ "/" ++ messageId)) ∧
      lookupKey convoId
          (updateKey convoId
            { c with messages := eraseKey messageId c.messages } r.convos) =
        some { c with messages := eraseKey messageId c.messages } ∧
      lookupKey messageId (eraseKey messageId c.messages) = none ∧
      (∀ k, k ≠ messageId →
        lookupKey k (eraseKey messageId c.messages) = lookupKey k c.messages) ∧
      Room.ReadMessage URL
          { convos := updateKey convoId
              { c with messages := eraseKey messageId c.messages } r.convos }
          convoId messageId =
        some ({ convos := updateKey convoId
                  { c with messages := eraseKey messageId c.messages }
                  (updateKey convoId
                    { c with messages := eraseKey messageId c.messages } r.convos) },
          Except.error "message doesn\x27t exist", [])) ∧
    (lookupKey messageId c.messages = none →
      Room.ReadMessage URL r convoId messageId =
        some ({ convos := updateKey convoId c r.convos },
          Except.error "message doesn\x27t exist", []) ∧
      lookupKey convoId (updateKey convoId c r.convos) = some c) ∧
    (∀ s, (c.user0.isSome ∨ c.user1.isSome) →
      broadcastWrites c s = c.occupants.map (fun u => (u, s))) := by
  refine ⟨?_, ?_, ?_⟩
  · intro data hdata
    have hread : Convo.ReadMessage c messageId = some data := by
      simpa [Convo.ReadMessage] using hdata
    have hlook2 : lookupKey convoId
        (updateKey convoId
          { c with messages := eraseKey messageId c.messages } r.convos) =
        some { c with messages := eraseKey messageId c.messages } :=
      lookupKey_updateKey_self hc _
    have hgone : lookupKey messageId (eraseKey messageId c.messages) = none :=
      lookupKey_eraseKey_self messageId c.messages
    have hread2 : Convo.ReadMessage
        { c with messages := eraseKey messageId c.messages } messageId = none := by
      simpa [Convo.ReadMessage] using hgone
    have herase2 : eraseKey messageId (eraseKey messageId c.messages) =
        eraseKey messageId c.messages :=
      eraseKey_of_lookupKey_none hgone
    refine ⟨?_, hlook2, hgone, ?_, ?_⟩
    · simp [Room.ReadMessage, hc, hread]
    · intro k hk
      exact lookupKey_eraseKey_ne hk c.messages
    · simp [Room.ReadMessage, hlook2, hread2, herase2]
  · intro habs
    have hread : Convo.ReadMessage c messageId = none := by
      simpa [Convo.ReadMessage] using habs
    have herase : eraseKey messageId c.messages = c.messages :=
      eraseKey_of_lookupKey_none habs
    constructor
    · simp [Room.ReadMessage, hc, hread, herase]
    · exact lookupKey_updateKey_self hc c
  · intro s hocc
    rcases h0 : c.user0 with _ | u0 <;> rcases h1 : c.user1 with _ | u1 <;>
      simp_all [broadcastWrites, Convo.Broadcast, Convo.occupants]

/-- Witness for C1 on the concrete registry rPair: the first read delivers
the stored bytes of m0 and erases it. -/
theorem readMessage_read_once_witness :
    lookupKey "c0" rPair.convos = some cPair ∧
    Room.ReadMessage "u/" rPair "c0" "m0" =
      some ({ convos := updateKey "c0"
                { cPair with messages := eraseKey "m0" cPair.messages } rPair.convos },
        Except.ok [104, 105],
        broadcastWrites cPair ("- " ++ "u/" ++ "c0" ++ "/" ++ "m0")) :=
  ⟨by decide,
    (((readMessage_read_once "u/" rPair "c0" cPair (by decide) "m0").1
      [104, 105] (by decide)).1)⟩

/-- Replacing a conversation that still has an occupant keeps the registry
well formed. -/
theorem wf_updateKey {r : Room} (hwf : Room.WF r) {k : String} {c : Convo}
    (hocc : (c.user0.isSome || c.user1.isSome) = true) :
    Room.WF { convos := updateKey k c r.convos } := by
  intro p hp
  rcases mem_updateKey hp with h | h
  · rw [h]; exact hocc
  · exact hwf p h

/-- Deleting a conversation keeps the registry well formed. -/
theorem wf_eraseKey {r : Room} (hwf : Room.WF r) (k : String) :
    Room.WF { convos := eraseKey k r.convos } :=
  fun p hp => hwf p (mem_eraseKey hp)

/-- Inserting a conversation that has an occupant keeps the registry well
formed. -/
theorem wf_cons {r : Room} (hwf : Room.WF r) {k : String} {c : Convo}
    (hocc : (c.user0.isSome || c.user1.isSome) = true) :
    Room.WF { convos := (k, c) :: r.convos } := by
  intro p hp
  rcases List.mem_cons.mp hp with h | h
  · rw [h]; exact hocc
  · exact hwf p h

/-- JoinConvo preserves the occupancy invariant. -/
theorem join_preserves_wf {r : Room} (hwf : Room.WF r) :
    ∀ user convoId r2 res ws,
      r.JoinConvo user convoId = some (r2, res, ws) → Room.WF r2 := by
  intro user convoId r2 res ws hjoin
  rcases hl : lookupKey convoId r.convos with _ | c
  · simp [Room.JoinConvo, hl] at hjoin
  · by_cases h01 : c.user0.isNone && c.user1.isSome
    · simp only [Room.JoinConvo, hl, h01, if_true] at hjoin
      obtain ⟨h2, -⟩ := Prod.mk.injEq .. |>.mp (Option.some.injEq .. |>.mp hjoin)
      subst h2
      exact wf_updateKey hwf (by simp [Convo.setUser])
    · by_cases h10 : c.user1.isNone && c.user0.isSome
      · simp only [Room.JoinConvo, hl, h01, h10, if_true, if_false] at hjoin
        obtain ⟨h2, -⟩ := Prod.mk.injEq .. |>.mp (Option.some.injEq .. |>.mp hjoin)
        subst h2
        exact wf_updateKey hwf (by simp [Convo.setUser])
      · simp only [Room.JoinConvo, hl, h01, h10, if_false] at hjoin
        obtain ⟨h2, -⟩ := Prod.mk.injEq .. |>.mp (Option.some.injEq .. |>.mp hjoin)
        subst h2
        exact hwf

/-- DeleteUser preserves the occupancy invariant: the conversation is
deleted in the very step in which both slots become empty. -/
theorem delete_preserves_wf {r : Room} (hwf : Room.WF r) :
    ∀ convoId userId r2 ws stopped,
      r.DeleteUser convoId userId = some (r2, ws, stopped) → Room.WF r2 := by
  intro convoId userId r2 ws stopped hdel
  rcases hl : lookupKey convoId r.convos with _ | c
  · simp [Room.DeleteUser, hl] at hdel
  · rcases hu : c.getUser userId with _ | u
    · simp [Room.DeleteUser, hl, hu] at hdel
    · by_cases hb : ((c.setUser userId none).user0.isNone &&
          (c.setUser userId none).user1.isNone)
      · simp only [Room.DeleteUser, hl, hu, hb, if_true] at hdel
        obtain ⟨h2, -⟩ := Prod.mk.injEq .. |>.mp (Option.some.injEq .. |>.mp hdel)
        subst h2
        exact wf_eraseKey hwf convoId
      · rcases ho : (c.setUser userId none).getUser (OtherUserId userId) with _ | other
        · simp [Room.DeleteUser, hl, hu, hb, ho] at hdel
        · simp only [Room.DeleteUser, hl, hu, hb, ho, if_false] at hdel
          obtain ⟨h2, -⟩ := Prod.mk.injEq .. |>.mp (Option.some.injEq .. |>.mp hdel)
          subst h2
          refine wf_updateKey hwf ?_
          rcases hb2 : (c.setUser userId none).user0.isSome with _ | _ <;>
            rcases hb3 : (c.setUser userId none).user1.isSome with _ | _ <;>
            simp_all [Bool.and_eq_true]

/-- AddMessage preserves the occupancy invariant. -/
theorem add_preserves_wf {r : Room} (hwf : Room.WF r) :
    ∀ URL now data convoId ip r2 res,
      r.AddMessage URL now data convoId ip = some (r2, res) → Room.WF r2 := by
  intro URL now data convoId ip r2 res hadd
  rcases hl : lookupKey convoId r.convos with _ | c
  · simp [Room.AddMessage, hl] at hadd
  · rcases ha : c.AddMessage URL now data ip with e | ⟨c2, ws2⟩
    · simp only [Room.AddMessage, hl, ha] at hadd
      obtain ⟨h2, -⟩ := Prod.mk.injEq .. |>.mp (Option.some.injEq .. |>.mp hadd)
      subst h2
      exact hwf
    · simp only [Room.AddMessage, hl, ha] at hadd
      obtain ⟨h2, -⟩ := Prod.mk.injEq .. |>.mp (Option.some.injEq .. |>.mp hadd)
      subst h2
      refine wf_updateKey hwf ?_
      have hocc := hwf (convoId, c) (lookupKey_some_mem hl)
      rcases hcm : c.CreateMessage now data with e | ⟨c3, mid⟩
      · simp [Convo.AddMessage, hcm] at ha
      · simp only [Convo.AddMessage, hcm] at ha
        obtain ⟨h3, -⟩ := Prod.mk.injEq .. |>.mp (Except.ok.injEq .. |>.mp ha)
        subst h3
        rcases hcol : (lookupKey (NewId now data) c.messages).isSome with _ | _
        · simp only [Convo.CreateMessage, hcol, if_false] at hcm
          obtain ⟨h4, -⟩ := Prod.mk.injEq .. |>.mp (Except.ok.injEq .. |>.mp hcm)
          subst h4
          simpa using hocc
        · simp [Convo.CreateMessage, hcol] at hcm

/-- ReadMessage preserves the occupancy invariant. -/
theorem read_preserves_wf {r : Room} (hwf : Room.WF r) :
    ∀ URL convoId messageId r2 res ws,
      r.ReadMessage URL convoId messageId = some (r2, res, ws) → Room.WF r2 := by
  intro URL convoId messageId r2 res ws hrd
  rcases hl : lookupKey convoId r.convos with _ | c
  · simp [Room.ReadMessage, hl] at hrd
  · have hocc := hwf (convoId, c) (lookupKey_some_mem hl)
    rcases hm : c.ReadMessage messageId with _ | data <;>
      simp only [Room.ReadMessage, hl, hm] at hrd <;>
      obtain ⟨h2, -⟩ := Prod.mk.injEq .. |>.mp (Option.some.injEq .. |>.mp hrd) <;>
      subst h2 <;>
      exact wf_updateKey hwf (by simpa using hocc)

/-- Claim C2: every conversation id present in the registry refers to a
conversation with at least one occupied slot, and every registry operation
preserves this: CreateConvo inserts with slot 0 holding the creator, JoinConvo
fills a slot, DeleteUser deletes the conversation in the same atomic step
whenever both slots become empty, and the message operations leave occupancy
untouched. -/
theorem registry_occupancy_invariant (r : Room) (hwf : Room.WF r) :
    (∀ now user, Room.WF (r.CreateConvo now user).1 ∧
      ∀ convoId, (r.CreateConvo now user).2 = Except.ok convoId →
        lookupKey convoId (r.CreateConvo now user).1.convos =
          some { convoId := convoId,
                 user0 := some { user with convoId := convoId, userId := 0 },
                 user1 := none, messages := [] }) ∧
    (∀ user convoId r2 res ws,
      r.JoinConvo user convoId = some (r2, res, ws) → Room.WF r2) ∧
    (∀ convoId userId r2 ws stopped,
      r.DeleteUser convoId userId = some (r2, ws, stopped) → Room.WF r2) ∧
    (∀ URL now data convoId ip r2 res,
      r.AddMessage URL now data convoId ip = some (r2, res) → Room.WF r2) ∧
    (∀ URL convoId messageId r2 res ws,
      r.ReadMessage URL convoId messageId = some (r2, res, ws) → Room.WF r2) := by
  refine ⟨?_, join_preserves_wf hwf, delete_preserves_wf hwf, add_preserves_wf hwf, read_preserves_wf hwf⟩
  intro now user
  by_cases hcol : (lookupKey (NewId now []) r.convos).isSome
  · refine ⟨?_, ?_⟩
    · simpa [Room.CreateConvo, hcol] using hwf
    · intro convoId hok
      simp [Room.CreateConvo, hcol] at hok
  · refine ⟨?_, ?_⟩
    · simp only [Room.CreateConvo, hcol, if_false]
      exact wf_cons hwf (by simp)
    · intro convoId hok
      simp only [Room.CreateConvo, hcol, if_false] at hok ⊢
      obtain rfl := (Except.ok.injEq .. |>.mp hok)
      simp [lookupKey]

/-- Witness for C2: the concrete registries are well formed and stay so
across CreateConvo. -/
theorem registry_occupancy_invariant_witness :
    Room.WF rPair ∧ Room.WF (rPair.CreateConvo [] uAlice).1 :=
  ⟨by decide, ((registry_occupancy_invariant rPair (by decide)).1 [] uAlice).1⟩

/-- Claim C3: joining a conversation with exactly one occupied slot assigns
the new connection, with its ids set, to the free slot and succeeds, and the
join line carrying the new party address is delivered only to the previously
occupied slot; joining a full conversation fails with an error and neither
slot changes. -/
theorem joinConvo_one_slot (r : Room) (convoId : String) (c : Convo)
    (hc : lookupKey convoId r.convos = some c) (user : User) :
    (∀ u1, c.user0 = none → c.user1 = some u1 →
      Room.JoinConvo r user convoId =
        some ({ convos := updateKey convoId
                  { c with user0 := some { user with convoId := convoId, userId := 0 } }
                  r.convos },
          Except.ok { user with convoId := convoId, userId := 0 },
          [(u1, "> " ++ user.ip)])) ∧
    (∀ u0, c.user1 = none → c.user0 = some u0 →
      Room.JoinConvo r user convoId =
        some ({ convos := updateKey convoId
                  { c with user1 := some { user with convoId := convoId, userId := 1 } }
                  r.convos },
          Except.ok { user with convoId := convoId, userId := 1 },
          [(u0, "> " ++ user.ip)])) ∧
    (c.user0.isSome = true → c.user1.isSome = true →
      Room.JoinConvo r user convoId = some (r, Except.error "this is bad", [])) := by
  refine ⟨?_, ?_, ?_⟩
  · intro u1 h0 h1
    simp [Room.JoinConvo, hc, h0, h1, Convo.setUser, broadcastWrites,
      Convo.Broadcast, Convo.occupants]
  · intro u0 h1 h0
    simp [Room.JoinConvo, hc, h0, h1, Convo.setUser, broadcastWrites,
      Convo.Broadcast, Convo.occupants]
  · intro h0 h1
    have hn0 : ¬ c.user0 = none := by
      intro e; rw [e] at h0; simp at h0
    have hn1 : ¬ c.user1 = none := by
      intro e; rw [e] at h1; simp at h1
    simp [Room.JoinConvo, hc, hn0, hn1]

/-- Witness for C3: joining the half-empty conversation fills slot 0 and
only the prior occupant hears about it. -/
theorem joinConvo_one_slot_witness :
    lookupKey "c1" rSolo.convos = some cSolo ∧
    Room.JoinConvo rSolo uAlice "c1" =
      some ({ convos := updateKey "c1"
                { cSolo with user0 := some { uAlice with convoId := "c1", userId := 0 } }
                rSolo.convos },
        Except.ok { uAlice with convoId := "c1", userId := 0 },
        [(uBob, "> " ++ uAlice.ip)]) :=
  ⟨by decide, (joinConvo_one_slot rSolo "c1" cSolo (by decide) uAlice).1 uBob rfl rfl⟩

/-- IPExists on a registered conversation computes the disjunction of the
two per-slot address comparisons. -/
theorem ipExists_eq (r : Room) (convoId ip : String) (c : Convo)
    (hc : lookupKey convoId r.convos = some c) :
    r.IPExists convoId ip =
      some (c.user0.any (fun u => u.ip == ip) || c.user1.any (fun u => u.ip == ip)) := by
  by_cases hA : c.user0.any (fun u => u.ip == ip)
  · simp [Room.IPExists, hc, hA]
  · by_cases hB : c.user1.any (fun u => u.ip == ip)
    · simp [Room.IPExists, hc, hA, hB]
    · simp [Room.IPExists, hc, hA, hB]

/-- Claim C4: the authorization check is true exactly when some occupied
slot address equals the caller address, and a read or write request from any
other address is a silent no-op: the registry (hence the message map and the
slots) is unchanged and no mailbox write is produced at all. -/
theorem unauthorized_noop (URL : String) (r : Room) (convoId : String) (c : Convo)
    (hc : lookupKey convoId r.convos = some c) (ip : String) :
    (r.IPExists convoId ip = some true ↔
      ∃ u, (c.user0 = some u ∨ c.user1 = some u) ∧ u.ip = ip) ∧
    ((∀ u, c.user0 = some u ∨ c.user1 = some u → u.ip ≠ ip) →
      (∀ now body, handlePut URL r now convoId body ip =
        (r, HandlerResult.silent, [])) ∧
      (∀ messageId, handleGetMessage URL r convoId messageId ip =
        (r, HandlerResult.silent, []))) := by
  constructor
  · rw [ipExists_eq r convoId ip c hc]
    constructor
    · intro h
      simp only [Option.some.injEq] at h
      rcases Bool.or_eq_true .. |>.mp h with hA | hB
      · rcases h0 : c.user0 with _ | u0
        · rw [h0] at hA; simp [Option.any] at hA
        · rw [h0] at hA
          simp only [Option.any, beq_iff_eq] at hA
          exact ⟨u0, Or.inl rfl, hA⟩
      · rcases h1 : c.user1 with _ | u1
        · rw [h1] at hB; simp [Option.any] at hB
        · rw [h1] at hB
          simp only [Option.any, beq_iff_eq] at hB
          exact ⟨u1, Or.inr rfl, hB⟩
    · rintro ⟨u, hu | hu, hip⟩ <;> simp [hu, Option.any, hip]
  · intro hnone
    have hA : c.user0.any (fun u => u.ip == ip) = false := by
      rcases h0 : c.user0 with _ | u0
      · rfl
      · simp only [Option.any, beq_eq_false_iff_ne, ne_eq]
        exact hnone u0 (Or.inl h0)
    have hB : c.user1.any (fun u => u.ip == ip) = false := by
      rcases h1 : c.user1 with _ | u1
      · rfl
      · simp only [Option.any, beq_eq_false_iff_ne, ne_eq]
        exact hnone u1 (Or.inr h1)
    have hfalse : r.IPExists convoId ip = some false := by
      rw [ipExists_eq r convoId ip c hc, hA, hB]
      rfl
    refine ⟨?_, ?_⟩
    · intro now body
      simp [handlePut, hc, hfalse]
    · intro messageId
      simp [handleGetMessage, hc, hfalse]

/-- Witness for C4: a PUT from a stranger address leaves the concrete
registry untouched and writes nothing. -/
theorem unauthorized_noop_witness :
    lookupKey "c0" rPair.convos = some cPair ∧
    handlePut "u/" rPair [] "c0" [104] "9.9.9.9" = (rPair, HandlerResult.silent, []) :=
  ⟨by decide,
    ((unauthorized_noop "u/" rPair "c0" cPair (by decide) "9.9.9.9").2 (by
      intro u hu
      rcases hu with h | h
      · simp [cPair] at h
        subst h; decide
      · simp [cPair] at h
        subst h; decide)).1 [] [104]⟩

/-- Claim C5: AddMessage generates the message id from the data as salt; on
a collision with a stored id it fails and the message map is unchanged;
otherwise it stores the message and notifies every occupied slot with a link
marked with a blank for the slot whose IP equals the caller IP and with a
plus sign otherwise. -/
theorem addMessage_notifies (URL : String) (c : Convo) (now data : List Nat)
    (ip : String) :
    ((lookupKey (NewId now data) c.messages).isSome = true →
      c.AddMessage URL now data ip = Except.error "message id overwrite" ∧
      ∀ r convoId, lookupKey convoId r.convos = some c →
        Room.AddMessage URL r now data convoId ip =
          some (r, Except.error "message id overwrite")) ∧
    (lookupKey (NewId now data) c.messages = none →
      c.AddMessage URL now data ip =
        Except.ok ({ c with messages := (NewId now data, data) :: c.messages },
          c.occupants.map (fun u =>
            (u, (if u.ip == ip then "  " else "+ ")
                 ++ URL ++ c.convoId ++ "/" ++ NewId now data))) ∧
      lookupKey (NewId now data) ((NewId now data, data) :: c.messages) = some data ∧
      (∀ u, c.user0 = some u ∨ c.user1 = some u →
        (u, (if u.ip == ip then "  " else "+ ")
             ++ URL ++ c.convoId ++ "/" ++ NewId now data) ∈
          c.occupants.map (fun u2 =>
            (u2, (if u2.ip == ip then "  " else "+ ")
                 ++ URL ++ c.convoId ++ "/" ++ NewId now data)))) := by
  constructor
  · intro hcol
    have h1 : c.AddMessage URL now data ip = Except.error "message id overwrite" := by
      simp [Convo.AddMessage, Convo.CreateMessage, hcol]
    refine ⟨h1, ?_⟩
    intro r convoId hc
    simp [Room.AddMessage, hc, h1]
  · intro habs
    have hcol : (lookupKey (NewId now data) c.messages).isSome = false := by
      simp [habs]
    refine ⟨?_, ?_, ?_⟩
    · simp [Convo.AddMessage, Convo.CreateMessage, hcol, Convo.occupants]
    · simp [lookupKey]
    · intro u hu
      rcases hu with h | h <;> simp [Convo.occupants, h]

/-- Claim C6: removing a user empties its slot; when the other slot is still
occupied the remaining occupant receives the leave line with the departing
address and the conversation stays registered; when the other slot is empty
the ping task is stopped and the conversation is deleted from the registry,
all inside the one atomic step. -/
theorem deleteUser_leave_or_terminate (r : Room) (convoId : String) (c : Convo)
    (hc : lookupKey convoId r.convos = some c) (userId : Int)
    (hid : userId = 0 ∨ userId = 1) (u : User) (hu : c.getUser userId = some u) :
    (∀ other, c.getUser (OtherUserId userId) = some other →
      Room.DeleteUser r convoId userId =
        some ({ convos := updateKey convoId (c.setUser userId none) r.convos },
          [(other, "< " ++ u.ip)], false) ∧
      lookupKey convoId (updateKey convoId (c.setUser userId none) r.convos) =
        some (c.setUser userId none) ∧
      (c.setUser userId none).getUser userId = none ∧
      (c.setUser userId none).getUser (OtherUserId userId) = some other) ∧
    (c.getUser (OtherUserId userId) = none →
      Room.DeleteUser r convoId userId =
        some ({ convos := eraseKey convoId r.convos }, [], true) ∧
      lookupKey convoId (eraseKey convoId r.convos) = none) := by
  rcases hid with h | h <;> subst h
  · have hoth : OtherUserId 0 = 1 := by decide
    rw [hoth]
    have hu0 : c.user0 = some u := by simpa [Convo.getUser] using hu
    constructor
    · intro other h1
      have h1x : c.user1 = some other := by simpa [Convo.getUser] using h1
      refine ⟨?_, ?_, ?_, ?_⟩
      · simp [Room.DeleteUser, hc, Convo.getUser, Convo.setUser, hu0, h1x, hoth]
      · exact lookupKey_updateKey_self hc _
      · simp [Convo.getUser, Convo.setUser]
      · simp [Convo.getUser, Convo.setUser, h1x]
    · intro h1
      have h1x : c.user1 = none := by simpa [Convo.getUser] using h1
      refine ⟨?_, lookupKey_eraseKey_self convoId r.convos⟩
      simp [Room.DeleteUser, hc, Convo.getUser, Convo.setUser, hu0, h1x]
  · have hoth : OtherUserId 1 = 0 := by decide
    rw [hoth]
    have hu1 : c.user1 = some u := by simpa [Convo.getUser] using hu
    constructor
    · intro other h0
      have h0x : c.user0 = some other := by simpa [Convo.getUser] using h0
      refine ⟨?_, ?_, ?_, ?_⟩
      · simp [Room.DeleteUser, hc, Convo.getUser, Convo.setUser, hu1, h0x, hoth]
      · exact lookupKey_updateKey_self hc _
      · simp [Convo.getUser, Convo.setUser]
      · simp [Convo.getUser, Convo.setUser, h0x]
    · intro h0
      have h0x : c.user0 = none := by simpa [Convo.getUser] using h0
      refine ⟨?_, lookupKey_eraseKey_self convoId r.convos⟩
      simp [Room.DeleteUser, hc, Convo.getUser, Convo.setUser, hu1, h0x]

/-- Witness for C6: removing slot 0 of the full conversation notifies the
remaining occupant. -/
theorem deleteUser_leave_or_terminate_witness :
    lookupKey "c0" rPair.convos = some cPair ∧ ((0 : Int) = 0 ∨ (0 : Int) = 1) ∧
    cPair.getUser 0 = some uAlice ∧
    Room.DeleteUser rPair "c0" 0 =
      some ({ convos := updateKey "c0" (cPair.setUser 0 none) rPair.convos },
        [(uBob, "< " ++ uAlice.ip)], false) :=
  ⟨by decide, Or.inl rfl, by decide,
    ((deleteUser_leave_or_terminate rPair "c0" cPair (by decide) 0 (Or.inl rfl)
      uAlice (by decide)).1 uBob (by decide)).1⟩

/-- Claim C7 is violated by the code: a PUT whose generated message id
collides with a stored one reaches panic(err) in the handler instead of a
rejected request with a non-2xx status: on this concrete registry the handler
outcome is panicked. -/
theorem put_collision_panics :
    handlePut "u/" rClash [] "c2" [] "1.1.1.1" =
      (rClash, HandlerResult.panicked "message id overwrite", []) := by decide

/-- Claim C8 is violated by the code: NewUser leaves the Stop channel at its
nil zero value, so from the initial state of a connection no interleaving of
the cleanup goroutine and the select loop ever closes the Pipe, ends the
loop, or produces the nil return: even after the disconnect notification is
consumed, the rendezvous on the nil Stop channel can never fire. -/
theorem listen_never_stops (s : ListenState)
    (h : ListenReach ListenState.init s) :
    s.pipeClosed = false ∧ s.loopRunning = true ∧ s.loopResult = none := by
  have inv : s.stopChan = ChanVal.nilChan ∧
      (s.cleanup = CleanupPC.waitNotify ∨ s.cleanup = CleanupPC.callDeleteUser ∨
       s.cleanup = CleanupPC.sendStop) ∧
      s.pipeClosed = false ∧ s.loopRunning = true ∧ s.loopResult = none := by
    induction h with
    | refl => exact ⟨rfl, Or.inl rfl, rfl, rfl, rfl⟩
    | tail hr hs ih =>
        cases hs with
        | notifyFires ht =>
            exact ⟨ih.1, Or.inr (Or.inl rfl), ih.2.2.1, ih.2.2.2.1, ih.2.2.2.2⟩
        | deleteUserReturns ht =>
            exact ⟨ih.1, Or.inr (Or.inr rfl), ih.2.2.1, ih.2.2.2.1, ih.2.2.2.2⟩
        | stopRendezvous h1 h2 h3 =>
            rw [ih.1] at h2
            exact absurd h2 (by decide)
        | closeHappens ht =>
            rcases ih.2.1 with h | h | h <;> rw [h] at ht <;>
              exact absurd ht (by decide)
        | pipeDelivery h1 h2 => exact ih
  exact ⟨inv.2.2.1, inv.2.2.2.1, inv.2.2.2.2⟩

/-- Witness for C8 at the initial connection state. -/
theorem listen_never_stops_witness :
    ListenReach ListenState.init ListenState.init ∧
    (ListenState.init.pipeClosed = false ∧ ListenState.init.loopRunning = true ∧
     ListenState.init.loopResult = none) :=
  ⟨ListenReach.refl ListenState.init,
    listen_never_stops ListenState.init (ListenReach.refl ListenState.init)⟩
